import Mathlib

/-!
Verification of the fixed-point header generators
(`scripts/generate_headers.py` and `scripts/generate_math_headers.py`).

The generators emit C headers for signed Qm.n fixed-point formats:
`storageBits (m+n+1)`-bit two's-complement storage, `n` fractional bits.
Machine integers are embedded as `Int` together with an explicit
two's-complement reinterpretation `wrap w`, applied exactly where the C code
converts an intermediate back to the storage type (C23 defines that
conversion as reduction modulo `2 ^ w`).  Arithmetic right shift is
`Int.fdiv` by a power of two; C integer division truncates, i.e. is
`Int.tdiv`; on a two's-complement integer `x & ~(ONE-1)` clears the low `n`
bits, i.e. subtracts `x % 2 ^ n` (for every generated format the
`frac_mask` macro evaluates to `2 ^ n - 1` since `n < w`), and
`x & (ONE-1)` is `x % 2 ^ n`.

The `double` computations of the generators are modelled exactly over `ℚ`
(the source's literals are decimal; every input appearing in the claims is
exactly representable as a double, and every modelled constant is far from a
truncation boundary relative to the double rounding error), except
`math.atan`, which is modelled by `Real.arctan` (float error ~1e-16, while
every generated table entry is at distance ≥ 1/500 from the nearest
integer).
-/

/-- Storage width chosen by the generators for a total bit count
`m + n + 1`: the smallest of 8, 16, 32, 64 that fits (both scripts reject
totals above 64 before emitting anything). -/
def storageBits (total : Nat) : Nat :=
  if total ≤ 8 then 8 else if total ≤ 16 then 16 else if total ≤ 32 then 32 else 64

/-- A value representable in signed two's-complement width `w` (the storage
invariant of a format `Value`). -/
def inRange (w : Nat) (x : Int) : Prop :=
  -2 ^ (w - 1) ≤ x ∧ x < 2 ^ (w - 1)

instance (w : Nat) (x : Int) : Decidable (inRange w x) := by
  unfold inRange; exact instDecidableAnd

/-- C23 conversion of an integer to the signed `w`-bit storage type: reduce
modulo `2 ^ w`; residues at or above `2 ^ (w-1)` represent negatives. -/
def wrap (w : Nat) (x : Int) : Int :=
  if x % 2 ^ w < 2 ^ (w - 1) then x % 2 ^ w
  else x % 2 ^ w - 2 ^ w

/-- `q{m}_{n}_add` (generate_headers.py): both operands converted to the
unsigned type (mod `2 ^ w`), added there, and the sum converted back to the
signed storage type. -/
def qadd (w : Nat) (a b : Int) : Int :=
  wrap w (a % 2 ^ w + b % 2 ^ w)

/-- `q{m}_{n}_sub` (generate_headers.py): as `qadd`, with subtraction. -/
def qsub (w : Nat) (a b : Int) : Int :=
  wrap w (a % 2 ^ w - b % 2 ^ w)

/-- `q{m}_{n}_mul` (generate_headers.py): widen to the double-width
accumulator, multiply, add the rounding bias `1 << (n-1)`, arithmetic right
shift by `n`, convert back to storage.  The C bias expression `1 << (n-1)`
requires `1 ≤ n`. -/
def qmul (w n : Nat) (a b : Int) : Int :=
  wrap w (Int.fdiv (a * b + 2 ^ (n - 1)) (2 ^ n))

/-- `q{m}_{n}_div` (generate_headers.py): division by zero returns the
storage bound `INT*_MAX` for `a ≥ 0` and `INT*_MIN` otherwise; else the
widened dividend `a << n` is divided by `b` with C (truncating) division and
the quotient converted back to storage. -/
def qdiv (w n : Nat) (a b : Int) : Int :=
  if b = 0 then (if 0 ≤ a then 2 ^ (w - 1) - 1 else -(2 ^ (w - 1)))
  else wrap w (Int.tdiv (a * 2 ^ n) b)

/-- C cast of a real value to an integer type, and Python `int()`:
truncation toward zero. -/
def ratTrunc (q : ℚ) : Int := if 0 ≤ q then ⌊q⌋ else ⌈q⌉

/-- `q{m}_{n}_from_double`, with `double` modelled exactly over `ℚ`. -/
def fromDouble (n : Nat) (d : ℚ) : Int :=
  ratTrunc (d * 2 ^ n + (if 0 ≤ d then 1 / 2 else -(1 / 2)))

/-- `q{m}_{n}_to_double`, with `double` modelled exactly over `ℚ`. -/
def toDouble (n : Nat) (a : Int) : ℚ := (a : ℚ) / 2 ^ n

/-- The decimal `double` literal of the `Q{m}_{n}_PI` macro. -/
def piLit : ℚ := 314159265358979323846 / 10 ^ 20

/-- `Q{m}_{n}_PI = (type)(3.14159265358979323846 * (1LL << n))`: truncate
the scaled literal toward zero, then convert to the storage type. -/
def piConst (w n : Nat) : Int := wrap w (ratTrunc (piLit * 2 ^ n))

/-- `Q{m}_{n}_ONE = (type)(1LL << n)`. -/
def oneConst (w n : Nat) : Int := wrap w (2 ^ n)

/-- `Q{m}_{n}_HALF = (type)(1LL << (n-1))` (requires `1 ≤ n`). -/
def halfConst (w n : Nat) : Int := wrap w (2 ^ (n - 1))

/-- Two's-complement `x & ~(2^n - 1)`: clear the low `n` bits, i.e. round
down to the next multiple of `2 ^ n`. -/
def maskLow (n : Nat) (x : Int) : Int := x - x % 2 ^ n

/-- `q{m}_{n}_floor` (math header): mask for `x ≥ 0`; for `x < 0` the code
tests `x & frac_mask` and subtracts the `ONE` macro from the masked value
when fractional bits are set. -/
def qfloor (w n : Nat) (x : Int) : Int :=
  if 0 ≤ x then wrap w (maskLow n x)
  else if x % 2 ^ n = 0 then wrap w x
  else wrap w (maskLow n x - oneConst w n)

/-- `q{m}_{n}_ceil` (math header): mirror image of `qfloor`. -/
def qceil (w n : Nat) (x : Int) : Int :=
  if 0 ≤ x then
    if x % 2 ^ n = 0 then wrap w x
    else wrap w (maskLow n x + oneConst w n)
  else wrap w (maskLow n x)

/-- `q{m}_{n}_round` (math header): add `HALF` then mask for `x ≥ 0`,
subtract `HALF` then mask for `x < 0` (requires `1 ≤ n` for the `HALF`
macro). -/
def qround (w n : Nat) (x : Int) : Int :=
  if 0 ≤ x then wrap w (maskLow n (x + halfConst w n))
  else wrap w (maskLow n (x - halfConst w n))

/-- `q{m}_{n}_trunc` (math header): mask the fractional bits. -/
def qtrunc (w n : Nat) (x : Int) : Int := wrap w (maskLow n x)

/-- The CORDIC gain literal `0.60725293500888` of generate_cordic_tables. -/
def kLit : ℚ := 60725293500888 / 10 ^ 14

/-- `k_fixed = int(k * (1 << n_bits))`. -/
def kConst (n : Nat) : Int := ratTrunc (kLit * 2 ^ n)

/-- Python `int()` applied to a real number: truncation toward zero. -/
noncomputable def realTrunc (x : ℝ) : Int := if 0 ≤ x then ⌊x⌋ else ⌈x⌉

/-- The Python arctangent table of `generate_cordic_tables`: `min(n, 32)`
entries, entry `i` being `int(math.atan(2.0 ** -i) * (1 << n))`
(`math.atan` modelled by `Real.arctan`, see the header comment). -/
noncomputable def atanGen (n : Nat) : List Int :=
  (List.range (min n 32)).map fun i => realTrunc (Real.arctan (1 / 2 ^ i) * 2 ^ n)

/-- The table stored in the generated C file: the `cordic_atan_table` array
has `CORDIC_ITERATIONS = min(n, 16)` entries taken from the Python table
(the two coincide for every generated format, where `n ≤ 16`). -/
noncomputable def cordicTable (n : Nat) : List Int := (atanGen n).take (min n 16)

/-- One iteration of `cordic_rotate`: branch on the sign of the residual
angle `z`, shift-and-add updates of `(x, y, z)`, each component stored back
into the storage type. -/
def cordicStep (w : Nat) (t : Int) (i : Nat) : Int × Int × Int → Int × Int × Int :=
  fun s =>
    if 0 ≤ s.2.2 then
      (wrap w (s.1 - Int.fdiv s.2.1 (2 ^ i)), wrap w (s.2.1 + Int.fdiv s.1 (2 ^ i)),
        wrap w (s.2.2 - t))
    else
      (wrap w (s.1 + Int.fdiv s.2.1 (2 ^ i)), wrap w (s.2.1 - Int.fdiv s.1 (2 ^ i)),
        wrap w (s.2.2 + t))

/-- The `for` loop of `cordic_rotate`: one `cordicStep` per table entry,
the loop index tracking the entry position. -/
def cordicLoop (w : Nat) : Nat → List Int → Int × Int × Int → Int × Int × Int
  | _, [], s => s
  | i, t :: ts, s => cordicLoop w (i + 1) ts (cordicStep w t i s)

/-- `cordic_rotate`: start from `(K, 0, angle)`, return the final
`(x, y)`. -/
def cordicRotate (w : Nat) (k : Int) (table : List Int) (z : Int) : Int × Int :=
  ((cordicLoop w 0 table (k, 0, z)).1, (cordicLoop w 0 table (k, 0, z)).2.1)

/-- First range-reduction loop of `q{m}_{n}_sin` / `q{m}_{n}_cos`:
`while (angle > PI) angle -= 2*PI;`, the subtraction stored back into the
storage type.  The C loop carries no fuel; the model adds explicit fuel,
returning the state unchanged once the fuel runs out. -/
def loop1 (w : Nat) (p : Int) : Nat → Int → Int
  | 0, a => a
  | fuel + 1, a => if p < a then loop1 w p fuel (wrap w (a - 2 * p)) else a

/-- Number of iterations the first range-reduction loop performs, `none`
when the fuel is exhausted before the guard fails. -/
def loop1Count (w : Nat) (p : Int) : Nat → Int → Option Nat
  | 0, a => if p < a then none else some 0
  | fuel + 1, a =>
    if p < a then (loop1Count w p fuel (wrap w (a - 2 * p))).map (· + 1) else some 0

/-- Second range-reduction loop: `while (angle < -PI) angle += 2*PI;`. -/
def loop2 (w : Nat) (p : Int) : Nat → Int → Int
  | 0, a => a
  | fuel + 1, a => if a < -p then loop2 w p fuel (wrap w (a + 2 * p)) else a

/-- Iteration count of the second range-reduction loop. -/
def loop2Count (w : Nat) (p : Int) : Nat → Int → Option Nat
  | 0, a => if a < -p then none else some 0
  | fuel + 1, a =>
    if a < -p then (loop2Count w p fuel (wrap w (a + 2 * p))).map (· + 1) else some 0

/-- `q{m}_{n}_sin` with constants and table abstracted (the generated code
instantiates `p := piConst`, `k := kConst`, `table := cordicTable`): range
reduction, negate-and-restore for the odd symmetry, CORDIC rotation, return
`y`.  Fuel `a.natAbs + 2 ^ w` covers every case in which the generated
loops terminate at all (for `0 < p` see `sin_cos_range_reduction_bounded`;
the loop state space has `2 ^ w` values). -/
def sinWith (w : Nat) (p k : Int) (table : List Int) (a : Int) : Int :=
  let f := a.natAbs + 2 ^ w
  let a1 := loop2 w p f (loop1 w p f a)
  let a2 := if a1 < 0 then wrap w (-a1) else a1
  let r := cordicRotate w k table a2
  if a1 < 0 then wrap w (-r.2) else r.2

/-- `q{m}_{n}_cos` with constants and table abstracted: range reduction,
absolute value (even symmetry, no restore), CORDIC rotation, return `x`. -/
def cosWith (w : Nat) (p k : Int) (table : List Int) (a : Int) : Int :=
  let f := a.natAbs + 2 ^ w
  let a1 := loop2 w p f (loop1 w p f a)
  let a2 := if a1 < 0 then wrap w (-a1) else a1
  (cordicRotate w k table a2).1

/-- `q{m}_{n}_sin` of the generated math implementation file. -/
noncomputable def qsin (w n : Nat) (a : Int) : Int :=
  sinWith w (piConst w n) (kConst n) (cordicTable n) a

/-- `q{m}_{n}_cos` of the generated math implementation file. -/
noncomputable def qcos (w n : Nat) (a : Int) : Int :=
  cosWith w (piConst w n) (kConst n) (cordicTable n) a

/-- One iteration of `cordic_vector`: as `cordicStep`, but branching on the
sign of `y`. -/
def vectorStep (w : Nat) (t : Int) (i : Nat) : Int × Int × Int → Int × Int × Int :=
  fun s =>
    if s.2.1 < 0 then
      (wrap w (s.1 - Int.fdiv s.2.1 (2 ^ i)), wrap w (s.2.1 + Int.fdiv s.1 (2 ^ i)),
        wrap w (s.2.2 - t))
    else
      (wrap w (s.1 + Int.fdiv s.2.1 (2 ^ i)), wrap w (s.2.1 - Int.fdiv s.1 (2 ^ i)),
        wrap w (s.2.2 + t))

/-- The `for` loop of `cordic_vector`. -/
def vectorLoop (w : Nat) : Nat → List Int → Int × Int × Int → Int × Int × Int
  | _, [], s => s
  | i, t :: ts, s => vectorLoop w (i + 1) ts (vectorStep w t i s)

/-- `cordic_vector(x, y)`: accumulate the rotation angle starting from
`z = 0`. -/
def cordicVector (w : Nat) (table : List Int) (x y : Int) : Int :=
  (vectorLoop w 0 table (x, y, 0)).2.2

/-- `q{m}_{n}_atan2` with the PI constant and table abstracted: zero at the
origin, otherwise `cordic_vector` followed by the quadrant correction
(`result = PI - result` for `x < 0 ≤ y`, `result = -PI + result` for
`x < 0, y < 0`), each store converting back to the storage type. -/
def atan2With (w : Nat) (p : Int) (table : List Int) (y x : Int) : Int :=
  if x = 0 ∧ y = 0 then 0
  else
    let r := cordicVector w table x y
    if x < 0 then (if 0 ≤ y then wrap w (p - r) else wrap w (-p + r)) else r

/-- `q{m}_{n}_atan2` of the generated math implementation file. -/
noncomputable def qatan2 (w n : Nat) (y x : Int) : Int :=
  atan2With w (piConst w n) (cordicTable n) y x

/-- The format list of `generate_math_headers.main`. -/
def mathFormats : List (Nat × Nat) :=
  [(15, 16), (8, 8), (7, 8), (0, 7), (0, 15), (23, 8), (31, 0)]

/-- Modelled from the spec: "round-half-away-from-zero at the integer grid"
(§4.3), the semantics the spec asserts for `round`, stated as the nearest
multiple of `2 ^ n` with ties away from zero. -/
def roundAwaySpec (n : Nat) (x : Int) : Int :=
  if 0 ≤ x then 2 ^ n * Int.fdiv (x + 2 ^ (n - 1)) (2 ^ n)
  else -(2 ^ n * Int.fdiv (-x + 2 ^ (n - 1)) (2 ^ n))

/-- Modelled from the spec: `round(atan(2^-i) × 2^n)` (§3) — rounding to the
nearest integer.  Every generated table value is ≥ 1/500 away from a
half-integer, so all nearest-rounding conventions agree; half-up is used. -/
noncomputable def roundNearestReal (x : ℝ) : Int := ⌊x + 1 / 2⌋

/-! ### Basic facts about `wrap` -/

theorem wrap_congr {w : Nat} {x y : Int}
    (h : x % 2 ^ w = y % 2 ^ w) : wrap w x = wrap w y := by
  unfold wrap; rw [h]

theorem two_pow_split {w : Nat} (hw : 1 ≤ w) : (2 : Int) ^ w = 2 ^ (w - 1) * 2 := by
  rw [← pow_succ]
  congr 1
  omega

theorem wrap_eq_of_inRange {w : Nat} {x : Int} (hw : 1 ≤ w)
    (h1 : -2 ^ (w - 1) ≤ x) (h2 : x < 2 ^ (w - 1)) : wrap w x = x := by
  have hs := two_pow_split hw
  have hP : (0 : Int) < 2 ^ (w - 1) := pow_pos (by norm_num) _
  unfold wrap
  rcases le_or_lt 0 x with hx | hx
  · rw [Int.emod_eq_of_lt hx (by omega), if_pos h2]
  · have key : (x + 2 ^ w) % 2 ^ w = x % 2 ^ w := by
      have := Int.add_mul_emod_self_left x (2 ^ w) 1
      simp only [mul_one] at this
      exact this
    rw [← key, Int.emod_eq_of_lt (by omega) (by omega), if_neg (by omega)]
    omega

theorem wrap_inRange {w : Nat} (hw : 1 ≤ w) (x : Int) : inRange w (wrap w x) := by
  have hs := two_pow_split hw
  have h2w : (0 : Int) < 2 ^ w := pow_pos (by norm_num) _
  have hmn : 0 ≤ x % 2 ^ w := Int.emod_nonneg x (by positivity)
  have hml : x % 2 ^ w < 2 ^ w := Int.emod_lt_of_pos x h2w
  unfold wrap inRange
  split <;> constructor <;> omega

theorem wrap_emod_eq {w n : Nat} (hnw : n ≤ w) (x : Int) :
    wrap w x % 2 ^ n = x % 2 ^ n := by
  have hdvd : (2 : Int) ^ n ∣ 2 ^ w := pow_dvd_pow 2 hnw
  unfold wrap
  split
  · exact Int.emod_emod_of_dvd x hdvd
  · rw [Int.sub_emod, Int.emod_emod_of_dvd x hdvd, Int.emod_eq_zero_of_dvd hdvd, sub_zero]
    exact Int.emod_emod_of_dvd x dvd_rfl

/-! ### Evaluation of the scaled rational constants

The kernel cannot reduce `ℚ` floors, so these are settled by `norm_num`
once and reused. -/

theorem piRaw_7 : ratTrunc (piLit * 2 ^ 7) = 402 := by
  unfold ratTrunc piLit; norm_num

theorem piRaw_15 : ratTrunc (piLit * 2 ^ 15) = 102943 := by
  unfold ratTrunc piLit; norm_num

theorem piRaw_8 : ratTrunc (piLit * 2 ^ 8) = 804 := by
  unfold ratTrunc piLit; norm_num

theorem piConst_8_7 : piConst 8 7 = -110 := by
  unfold piConst; rw [piRaw_7]; decide

theorem piConst_16_15 : piConst 16 15 = -28129 := by
  unfold piConst; rw [piRaw_15]; decide

theorem piConst_16_8 : piConst 16 8 = 804 := by
  unfold piConst; rw [piRaw_8]; decide

theorem kConst_8 : kConst 8 = 155 := by
  unfold kConst ratTrunc kLit; norm_num

/-! ### Claims about the arithmetic core -/

/-- C6: for every storage width and all operands, `qadd`/`qsub` compute the
signed reinterpretation of `(a + b) mod 2^w` resp. `(a - b) mod 2^w` —
silent two's-complement wraparound; in particular, in Q7.8 (16-bit storage)
`add(32767, 1) = -32768`. -/
theorem add_sub_two_complement_wraparound :
    (∀ (w : Nat) (a b : Int),
      qadd w a b = wrap w (a + b) ∧ qsub w a b = wrap w (a - b)) ∧
    qadd 16 32767 1 = -32768 := by
  refine ⟨fun w a b => ⟨?_, ?_⟩, by decide⟩
  · exact wrap_congr (Int.add_emod a b (2 ^ w)).symm
  · exact wrap_congr (Int.sub_emod a b (2 ^ w)).symm

/-- C5 (amended): division by zero saturates to the storage bounds (MAX for
`a ≥ 0`, MIN for `a < 0`, never wrapping, no error); for `b ≠ 0` the result
is the signed reinterpretation modulo `2^w` of the truncation toward zero of
`(a * 2^n) / b`, and equals that truncation exactly whenever it fits the
storage width. -/
theorem div_zero_saturates_else_truncates_wrapped (w n : Nat) (a b : Int) :
    (b = 0 → qdiv w n a b = if 0 ≤ a then 2 ^ (w - 1) - 1 else -(2 ^ (w - 1))) ∧
    (b ≠ 0 → qdiv w n a b = wrap w (Int.tdiv (a * 2 ^ n) b)) ∧
    (1 ≤ w → b ≠ 0 → inRange w (Int.tdiv (a * 2 ^ n) b) →
      qdiv w n a b = Int.tdiv (a * 2 ^ n) b) := by
  refine ⟨fun hb => ?_, fun hb => ?_, fun hw hb hr => ?_⟩
  · unfold qdiv; rw [if_pos hb]
  · unfold qdiv; rw [if_neg hb]
  · unfold qdiv; rw [if_neg hb]; exact wrap_eq_of_inRange hw hr.1 hr.2

/-- Witness for C5: at Q7.8 with `a = 5`, `b = 2` the wide quotient `640`
is in range and is returned exactly. -/
theorem div_zero_saturates_witness : qdiv 16 8 5 2 = 640 := by
  have h := (div_zero_saturates_else_truncates_wrapped 16 8 5 2).2.2
    (by decide) (by decide) (by decide)
  rw [h]; decide

/-- C5 counterexample: in Q7.8, `div(32767, 1)` is `-256`, not the wide
truncated quotient `8388352` the claim asserts (the cast back to storage
wraps). -/
theorem div_result_not_wide_quotient :
    qdiv 16 8 32767 1 = -256 ∧ Int.tdiv (32767 * 2 ^ 8) 1 = 8388352 ∧
    qdiv 16 8 32767 1 ≠ Int.tdiv (32767 * 2 ^ 8) 1 := by decide

/-- C9: in Q7.8, `div(300, 2)` (that is, 1.171875 divided by 0.0078125)
produces the wide quotient `38400`, which exceeds the 16-bit storage range
and is silently reinterpreted modulo `2^16` as `-27136` — no saturation to
MAX or MIN occurs for `b ≠ 0`. -/
theorem div_quotient_overflow_wraps :
    qdiv 16 8 300 2 = -27136 ∧
    Int.tdiv (300 * 2 ^ 8) 2 = 38400 ∧
    ¬ inRange 16 (Int.tdiv (300 * 2 ^ 8) 2) ∧
    qdiv 16 8 300 2 = wrap 16 (Int.tdiv (300 * 2 ^ 8) 2) ∧
    qdiv 16 8 300 2 ≠ 2 ^ 15 - 1 ∧ qdiv 16 8 300 2 ≠ -(2 ^ 15) := by decide

/-- C8 counterexample: in the generated Q0.7 format (8-bit storage,
`n = 7`), the ONE constant `(int8_t)(1 << 7)` wraps to `-128`, and
`mul(1, ONE) = -1 ≠ 1`. -/
theorem mul_one_wraps_in_q0_7 :
    oneConst 8 7 = -128 ∧ qmul 8 7 1 (oneConst 8 7) = -1 ∧
    qmul 8 7 1 (oneConst 8 7) ≠ 1 := by decide

/-- C8 (amended): for every format whose ONE constant is representable
(`2^n < 2^(w-1)`, i.e. `n + 1 < w`; true for every generated format except
Q0.7 and Q0.15) and every in-range `x` — including MAX and MIN —
`mul(x, ONE) = x` exactly: the widened product plus the bias `2^(n-1)`,
arithmetically shifted right by `n`, is `x`, with no wraparound. -/
theorem mul_one_exact_when_representable (w n : Nat) (hn : 1 ≤ n) (hrep : n + 1 < w) :
    oneConst w n = 2 ^ n ∧
    ∀ x : Int, inRange w x → qmul w n x (oneConst w n) = x := by
  have hw : 1 ≤ w := by omega
  have hlt : (2 : Int) ^ n < 2 ^ (w - 1) := by
    have : n < w - 1 := by omega
    exact pow_lt_pow_right₀ (by norm_num) this
  have hone : oneConst w n = 2 ^ n := by
    unfold oneConst
    exact wrap_eq_of_inRange hw ((neg_nonpos.mpr (by positivity)).trans (by positivity)) hlt
  refine ⟨hone, fun x hx => ?_⟩
  rw [hone]
  unfold qmul
  have hfd : Int.fdiv (x * 2 ^ n + 2 ^ (n - 1)) (2 ^ n) = x := by
    rw [Int.fdiv_eq_ediv _ (by positivity), add_comm,
      Int.add_mul_ediv_right _ _ (by positivity : (2 : Int) ^ n ≠ 0),
      Int.ediv_eq_zero_of_lt (by positivity)
        (pow_lt_pow_right₀ (by norm_num) (by omega)), zero_add]
  rw [hfd]
  exact wrap_eq_of_inRange hw hx.1 hx.2

/-- Witness for C8: in Q7.8, `mul(MAX, ONE) = MAX` exactly. -/
theorem mul_one_exact_witness : qmul 16 8 32767 (oneConst 16 8) = 32767 :=
  (mul_one_exact_when_representable 16 8 (by decide) (by decide)).2 32767 (by decide)

/-- C10: the script generates Q0.7 and Q0.15; for both, the truncated
scaled constant `trunc(pi * 2^n)` (402 resp. 102943) exceeds the storage
MAX, so the cast in the PI macro wraps it to the negative values `-110`
resp. `-28129`; sin/cos range reduction and the atan2 quadrant correction
are defined in terms of exactly this wrapped constant. -/
theorem pi_constant_wraps_negative_for_m_le_1 :
    ((0, 7) ∈ mathFormats ∧ (0, 15) ∈ mathFormats) ∧
    (ratTrunc (piLit * 2 ^ 7) = 402 ∧ ¬ inRange 8 402 ∧
      piConst 8 7 = -110 ∧ piConst 8 7 < 0) ∧
    (ratTrunc (piLit * 2 ^ 15) = 102943 ∧ ¬ inRange 16 102943 ∧
      piConst 16 15 = -28129 ∧ piConst 16 15 < 0) ∧
    (∀ y x : Int, qatan2 8 7 y x = atan2With 8 (piConst 8 7) (cordicTable 7) y x) ∧
    (∀ a : Int, qsin 8 7 a = sinWith 8 (piConst 8 7) (kConst 7) (cordicTable 7) a) := by
  refine ⟨⟨by decide, by decide⟩,
    ⟨piRaw_7, by decide, piConst_8_7, by rw [piConst_8_7]; decide⟩,
    ⟨piRaw_15, by decide, piConst_16_15, by rw [piConst_16_15]; decide⟩,
    fun y x => rfl, fun a => rfl⟩

/-! ### Claims about the rounding core -/

/-- C1 (code bug): the claim (and spec §4.3) asserts that subtract-HALF-
then-mask realises round-half-away-from-zero for `x < 0`, but the
two's-complement mask truncates toward minus infinity, so every negative
input is rounded one full ONE too low except at exact ties: in Q7.8,
`round(-256)` (that is, `-1.0`) yields `-512` (`-2.0`), while
round-half-away-from-zero yields `-256`.  For `x ≥ 0` the two agree. -/
theorem round_negative_branch_bug :
    qround 16 8 (-256) = -512 ∧ roundAwaySpec 8 (-256) = -256 ∧
    qround 16 8 (-256) ≠ roundAwaySpec 8 (-256) ∧
    qround 16 8 (-300) = -512 ∧ roundAwaySpec 8 (-300) = -256 ∧
    qround 16 8 300 = 256 ∧ roundAwaySpec 8 300 = 256 := by decide

/-- C2 counterexample: in Q7.8 `round` is not idempotent on negative
values: `round(-512) = -768` but `round(round(-512)) = -1024`. -/
theorem round_not_idempotent_on_negatives :
    qround 16 8 (-512) = -768 ∧ qround 16 8 (qround 16 8 (-512)) = -1024 ∧
    qround 16 8 (qround 16 8 (-512)) ≠ qround 16 8 (-512) := by decide

/-! ### Idempotence of the rounding operations (C2) -/

theorem maskLow_emod (n : Nat) (x : Int) : maskLow n x % 2 ^ n = 0 := by
  unfold maskLow
  rw [Int.sub_emod, Int.emod_emod_of_dvd x dvd_rfl, sub_self, Int.zero_emod]

theorem oneConst_emod {w n : Nat} (hnw : n ≤ w) : oneConst w n % 2 ^ n = 0 := by
  unfold oneConst
  rw [wrap_emod_eq hnw, Int.emod_self]

theorem maskLow_le (n : Nat) (x : Int) : maskLow n x ≤ x := by
  unfold maskLow
  have : 0 ≤ x % 2 ^ n := Int.emod_nonneg x (by positivity)
  omega

theorem maskLow_eq_mul_ediv (n : Nat) (x : Int) : maskLow n x = 2 ^ n * (x / 2 ^ n) := by
  unfold maskLow
  rw [Int.emod_def]
  ring

theorem maskLow_nonneg (n : Nat) {x : Int} (h : 0 ≤ x) : 0 ≤ maskLow n x := by
  rw [maskLow_eq_mul_ediv]
  exact mul_nonneg (by positivity) (Int.ediv_nonneg h (by positivity))

theorem emod_add_multiple {m x h : Int} (hx : x % m = 0) : (x + h) % m = h % m := by
  rw [Int.add_emod, hx, zero_add, Int.emod_emod_of_dvd _ dvd_rfl]

theorem qfloor_multiple {w n : Nat} (hw : 1 ≤ w) (hnw : n ≤ w) (x : Int) :
    inRange w (qfloor w n x) ∧ qfloor w n x % 2 ^ n = 0 := by
  unfold qfloor
  by_cases h0 : 0 ≤ x
  · rw [if_pos h0]
    exact ⟨wrap_inRange hw _, by rw [wrap_emod_eq hnw]; exact maskLow_emod n x⟩
  · rw [if_neg h0]
    by_cases hm : x % 2 ^ n = 0
    · rw [if_pos hm]
      exact ⟨wrap_inRange hw _, by rw [wrap_emod_eq hnw]; exact hm⟩
    · rw [if_neg hm]
      refine ⟨wrap_inRange hw _, ?_⟩
      rw [wrap_emod_eq hnw, Int.sub_emod, maskLow_emod, oneConst_emod hnw, sub_self,
        Int.zero_emod]

theorem qfloor_fix {w n : Nat} (hw : 1 ≤ w) {x : Int}
    (hx : inRange w x) (hm : x % 2 ^ n = 0) : qfloor w n x = x := by
  have hmask : maskLow n x = x := by unfold maskLow; rw [hm, sub_zero]
  unfold qfloor
  by_cases h0 : 0 ≤ x
  · rw [if_pos h0, hmask]; exact wrap_eq_of_inRange hw hx.1 hx.2
  · rw [if_neg h0, if_pos hm]; exact wrap_eq_of_inRange hw hx.1 hx.2

theorem qceil_multiple {w n : Nat} (hw : 1 ≤ w) (hnw : n ≤ w) (x : Int) :
    inRange w (qceil w n x) ∧ qceil w n x % 2 ^ n = 0 := by
  unfold qceil
  by_cases h0 : 0 ≤ x
  · rw [if_pos h0]
    by_cases hm : x % 2 ^ n = 0
    · rw [if_pos hm]
      exact ⟨wrap_inRange hw _, by rw [wrap_emod_eq hnw]; exact hm⟩
    · rw [if_neg hm]
      refine ⟨wrap_inRange hw _, ?_⟩
      rw [wrap_emod_eq hnw, Int.add_emod, maskLow_emod, oneConst_emod hnw, add_zero,
        Int.zero_emod]
  · rw [if_neg h0]
    exact ⟨wrap_inRange hw _, by rw [wrap_emod_eq hnw]; exact maskLow_emod n x⟩

theorem qceil_fix {w n : Nat} (hw : 1 ≤ w) {x : Int}
    (hx : inRange w x) (hm : x % 2 ^ n = 0) : qceil w n x = x := by
  have hmask : maskLow n x = x := by unfold maskLow; rw [hm, sub_zero]
  unfold qceil
  by_cases h0 : 0 ≤ x
  · rw [if_pos h0, if_pos hm]; exact wrap_eq_of_inRange hw hx.1 hx.2
  · rw [if_neg h0, hmask]; exact wrap_eq_of_inRange hw hx.1 hx.2

theorem qtrunc_multiple {w n : Nat} (hw : 1 ≤ w) (hnw : n ≤ w) (x : Int) :
    inRange w (qtrunc w n x) ∧ qtrunc w n x % 2 ^ n = 0 := by
  unfold qtrunc
  exact ⟨wrap_inRange hw _, by rw [wrap_emod_eq hnw]; exact maskLow_emod n x⟩

theorem qtrunc_fix {w n : Nat} (hw : 1 ≤ w) {x : Int}
    (hx : inRange w x) (hm : x % 2 ^ n = 0) : qtrunc w n x = x := by
  have hmask : maskLow n x = x := by unfold maskLow; rw [hm, sub_zero]
  unfold qtrunc
  rw [hmask]; exact wrap_eq_of_inRange hw hx.1 hx.2

theorem halfConst_eq {w n : Nat} (hn : 1 ≤ n) (hnw : n < w) : halfConst w n = 2 ^ (n - 1) := by
  unfold halfConst
  refine wrap_eq_of_inRange (by omega) ((neg_nonpos.mpr (by positivity)).trans (by positivity)) ?_
  exact pow_lt_pow_right₀ (by norm_num) (by omega)

theorem qround_idem {w n : Nat} (hn : 1 ≤ n) (hnw : n < w) {x : Int}
    (h0 : 0 ≤ x) (hov : x + 2 ^ (n - 1) < 2 ^ (w - 1)) :
    qround w n (qround w n x) = qround w n x := by
  have hw : 1 ≤ w := by omega
  have hh := halfConst_eq hn hnw
  have hhlt : (2 : Int) ^ (n - 1) < 2 ^ n := pow_lt_pow_right₀ (by norm_num) (by omega)
  have hhpos : (0 : Int) < 2 ^ (n - 1) := by positivity
  have hin1 : 0 ≤ maskLow n (x + 2 ^ (n - 1)) := maskLow_nonneg n (by omega)
  have hin2 : maskLow n (x + 2 ^ (n - 1)) < 2 ^ (w - 1) :=
    lt_of_le_of_lt (maskLow_le n _) hov
  have e1 : qround w n x = maskLow n (x + 2 ^ (n - 1)) := by
    unfold qround
    rw [if_pos h0, hh]
    exact wrap_eq_of_inRange hw (by omega) hin2
  set y := maskLow n (x + 2 ^ (n - 1)) with hy
  have hym : y % 2 ^ n = 0 := maskLow_emod n _
  have hdvd : (2 : Int) ^ n ∣ 2 ^ (w - 1) := pow_dvd_pow 2 (by omega)
  have hyle : y ≤ 2 ^ (w - 1) - 2 ^ n := by
    obtain ⟨k, hk⟩ := Int.dvd_of_emod_eq_zero hym
    obtain ⟨m, hm⟩ := hdvd
    have hkm : k < m := by
      have h2 : (2 : Int) ^ n * k < 2 ^ n * m := by rw [← hk, ← hm]; exact hin2
      exact lt_of_mul_lt_mul_left h2 (by positivity)
    calc y = 2 ^ n * k := hk
    _ ≤ 2 ^ n * (m - 1) := by
        apply mul_le_mul_of_nonneg_left (by omega) (by positivity)
    _ = 2 ^ (w - 1) - 2 ^ n := by rw [mul_sub, ← hm]; ring
  rw [e1]
  unfold qround
  rw [if_pos hin1, hh]
  have hmask : maskLow n (y + 2 ^ (n - 1)) = y := by
    unfold maskLow
    rw [emod_add_multiple hym, Int.emod_eq_of_lt (le_of_lt hhpos) hhlt]
    ring
  rw [hmask]
  exact wrap_eq_of_inRange hw (by omega) (by omega)

/-- C2 (amended): `floor`, `ceil` and `trunc` are idempotent on every value
(their result is always an in-range multiple of ONE, and such multiples are
fixed points, even when intermediate arithmetic wraps); `round` is
idempotent for `x ≥ 0` when `x + HALF` does not overflow the storage width,
but not for `x < 0` (see the counterexample). -/
theorem rounding_ops_idempotent (w n : Nat) (x : Int) (hn : 1 ≤ n) (hnw : n < w) :
    qfloor w n (qfloor w n x) = qfloor w n x ∧
    qceil w n (qceil w n x) = qceil w n x ∧
    qtrunc w n (qtrunc w n x) = qtrunc w n x ∧
    (0 ≤ x → x + 2 ^ (n - 1) < 2 ^ (w - 1) → qround w n (qround w n x) = qround w n x) := by
  have hw : 1 ≤ w := by omega
  have hnw' : n ≤ w := by omega
  refine ⟨?_, ?_, ?_, fun h0 hov => qround_idem hn hnw h0 hov⟩
  · obtain ⟨hr, hm⟩ := qfloor_multiple hw hnw' x
    exact qfloor_fix hw hr hm
  · obtain ⟨hr, hm⟩ := qceil_multiple hw hnw' x
    exact qceil_fix hw hr hm
  · obtain ⟨hr, hm⟩ := qtrunc_multiple hw hnw' x
    exact qtrunc_fix hw hr hm

/-- Witness for C2: idempotence evaluated at Q7.8, for `floor` at `-300`
and for `round` at `300`. -/
theorem rounding_ops_idempotent_witness :
    qfloor 16 8 (qfloor 16 8 (-300)) = qfloor 16 8 (-300) ∧
    qround 16 8 (qround 16 8 300) = qround 16 8 300 :=
  ⟨(rounding_ops_idempotent 16 8 (-300) (by decide) (by decide)).1,
   (rounding_ops_idempotent 16 8 300 (by decide) (by decide)).2.2.2 (by decide) (by decide)⟩

/-! ### Certified evaluation of the Q7.8 CORDIC arctangent table

The Python table entry is `int(atan(2^-i) * 256)`.  Each value is certified
by rational tangent bounds derived from `Real.sin_bound` / `Real.cos_bound`
(with a double-angle step where the Taylor error at the full argument would
be too coarse), transferred through the monotonicity of `arctan`. -/


theorem one_lt_pi_div_two : (1:ℝ) < Real.pi / 2 := by
  have := Real.pi_gt_three; linarith

theorem le_arctan_of_tan_le {c x : ℝ} (h0 : 0 ≤ c) (h1 : c < Real.pi / 2)
    (h : Real.tan c ≤ x) : c ≤ Real.arctan x := by
  have hc : Real.arctan (Real.tan c) = c :=
    Real.arctan_tan (by have := Real.pi_pos; linarith) h1
  calc c = Real.arctan (Real.tan c) := hc.symm
  _ ≤ Real.arctan x := Real.arctan_strictMono.monotone h

theorem arctan_lt_of_lt_tan {c x : ℝ} (h0 : 0 ≤ c) (h1 : c < Real.pi / 2)
    (h : x < Real.tan c) : Real.arctan x < c := by
  have hc : Real.arctan (Real.tan c) = c :=
    Real.arctan_tan (by have := Real.pi_pos; linarith) h1
  calc Real.arctan x < Real.arctan (Real.tan c) := Real.arctan_strictMono h
  _ = c := hc

theorem sin_le_poly {c : ℝ} (h0 : 0 < c) (h1 : c ≤ 1) :
    Real.sin c ≤ c - c ^ 3 / 6 + c ^ 4 * (5 / 96) := by
  have habs : |c| ≤ 1 := by rw [abs_of_pos h0]; exact h1
  have h := abs_le.mp (Real.sin_bound habs)
  rw [abs_of_pos h0] at h
  linarith [h.2]

theorem poly_le_sin {c : ℝ} (h0 : 0 < c) (h1 : c ≤ 1) :
    c - c ^ 3 / 6 - c ^ 4 * (5 / 96) ≤ Real.sin c := by
  have habs : |c| ≤ 1 := by rw [abs_of_pos h0]; exact h1
  have h := abs_le.mp (Real.sin_bound habs)
  rw [abs_of_pos h0] at h
  linarith [h.1]

theorem cos_le_poly {c : ℝ} (h0 : 0 < c) (h1 : c ≤ 1) :
    Real.cos c ≤ 1 - c ^ 2 / 2 + c ^ 4 * (5 / 96) := by
  have habs : |c| ≤ 1 := by rw [abs_of_pos h0]; exact h1
  have h := abs_le.mp (Real.cos_bound habs)
  rw [abs_of_pos h0] at h
  linarith [h.2]

theorem poly_le_cos {c : ℝ} (h0 : 0 < c) (h1 : c ≤ 1) :
    1 - c ^ 2 / 2 - c ^ 4 * (5 / 96) ≤ Real.cos c := by
  have habs : |c| ≤ 1 := by rw [abs_of_pos h0]; exact h1
  have h := abs_le.mp (Real.cos_bound habs)
  rw [abs_of_pos h0] at h
  linarith [h.1]

theorem den_pos {c : ℝ} (h0 : 0 < c) (h1 : c ≤ 1) :
    0 < 1 - c ^ 2 / 2 - c ^ 4 * (5 / 96) := by
  have h2 : c ^ 2 ≤ 1 := pow_le_one₀ (le_of_lt h0) h1
  have h4 : c ^ 4 ≤ 1 := pow_le_one₀ (le_of_lt h0) h1
  linarith

theorem num_pos {c : ℝ} (h0 : 0 < c) (h1 : c ≤ 1) :
    0 < c - c ^ 3 / 6 - c ^ 4 * (5 / 96) := by
  have h3 : c ^ 3 ≤ c := pow_le_of_le_one (le_of_lt h0) h1 (by norm_num)
  have h4 : c ^ 4 ≤ c := pow_le_of_le_one (le_of_lt h0) h1 (by norm_num)
  linarith

theorem tan_le_of_poly {c q : ℝ} (h0 : 0 < c) (h1 : c ≤ 1)
    (hq : c - c ^ 3 / 6 + c ^ 4 * (5 / 96) ≤ q * (1 - c ^ 2 / 2 - c ^ 4 * (5 / 96))) :
    Real.tan c ≤ q := by
  have hden := den_pos h0 h1
  have hnum := num_pos h0 h1
  have hcos := poly_le_cos h0 h1
  have hcpos : 0 < Real.cos c := lt_of_lt_of_le hden hcos
  have hsin := sin_le_poly h0 h1
  have hq0 : 0 ≤ q := by nlinarith
  rw [Real.tan_eq_sin_div_cos, div_le_iff₀ hcpos]
  calc Real.sin c ≤ c - c ^ 3 / 6 + c ^ 4 * (5 / 96) := hsin
  _ ≤ q * (1 - c ^ 2 / 2 - c ^ 4 * (5 / 96)) := hq
  _ ≤ q * Real.cos c := mul_le_mul_of_nonneg_left hcos hq0

theorem poly_le_tan {c q : ℝ} (h0 : 0 < c) (h1 : c ≤ 1) (hq0 : 0 ≤ q)
    (hq : q * (1 - c ^ 2 / 2 + c ^ 4 * (5 / 96)) ≤ c - c ^ 3 / 6 - c ^ 4 * (5 / 96)) :
    q ≤ Real.tan c := by
  have hden := den_pos h0 h1
  have hcosl := poly_le_cos h0 h1
  have hcpos : 0 < Real.cos c := lt_of_lt_of_le hden hcosl
  have hcosu := cos_le_poly h0 h1
  have hsin := poly_le_sin h0 h1
  rw [Real.tan_eq_sin_div_cos, le_div_iff₀ hcpos]
  calc q * Real.cos c ≤ q * (1 - c ^ 2 / 2 + c ^ 4 * (5 / 96)) :=
    mul_le_mul_of_nonneg_left hcosu hq0
  _ ≤ c - c ^ 3 / 6 - c ^ 4 * (5 / 96) := hq
  _ ≤ Real.sin c := hsin

theorem tan_nonneg_of_le_one {c : ℝ} (h0 : 0 ≤ c) (h1 : c ≤ 1) : 0 ≤ Real.tan c := by
  apply Real.tan_nonneg_of_nonneg_of_le_pi_div_two h0
  have := one_lt_pi_div_two
  linarith

theorem tan_double_le {c tu : ℝ} (h0 : 0 < c) (h1 : c ≤ 1)
    (htu : Real.tan c ≤ tu) (htu1 : tu < 1) :
    Real.tan (2 * c) ≤ 2 * tu / (1 - tu ^ 2) := by
  have ht0 : 0 ≤ Real.tan c := tan_nonneg_of_le_one (le_of_lt h0) h1
  rw [Real.tan_two_mul]
  apply div_le_div₀ (by linarith) (by linarith) (by nlinarith) (by nlinarith)

theorem le_tan_double {c tl tu : ℝ} (h0 : 0 < c) (h1 : c ≤ 1)
    (htl0 : 0 ≤ tl) (htl : tl ≤ Real.tan c)
    (htu : Real.tan c ≤ tu) (htu1 : tu < 1) :
    2 * tl / (1 - tl ^ 2) ≤ Real.tan (2 * c) := by
  have ht0 : 0 ≤ Real.tan c := tan_nonneg_of_le_one (le_of_lt h0) h1
  rw [Real.tan_two_mul]
  apply div_le_div₀ (by linarith) (by linarith) (by nlinarith) (by nlinarith)

-- now the concrete bounds
theorem atan_lb_1 : (59 : ℝ) / 128 ≤ Real.arctan (1 / 2 ^ 1) := by
  apply le_arctan_of_tan_le (by norm_num) (by have := one_lt_pi_div_two; norm_num; linarith)
  have hs : Real.tan ((59 : ℝ) / 256) ≤ 2349 / 10000 := by
    apply tan_le_of_poly (by norm_num) (by norm_num)
    norm_num
  have hd : Real.tan (2 * ((59 : ℝ) / 256)) ≤ 2 * (2349 / 10000) / (1 - (2349 / 10000) ^ 2) :=
    tan_double_le (by norm_num) (by norm_num) hs (by norm_num)
  have he : (59 : ℝ) / 128 = 2 * (59 / 256) := by norm_num
  rw [he]
  calc Real.tan (2 * ((59 : ℝ) / 256)) ≤ 2 * (2349 / 10000) / (1 - (2349 / 10000) ^ 2) := hd
  _ ≤ 1 / 2 ^ 1 := by norm_num

theorem atan_ub_1 : Real.arctan (1 / 2 ^ 1) < (119 : ℝ) / 256 := by
  apply arctan_lt_of_lt_tan (by norm_num) (by have := one_lt_pi_div_two; linarith)
  have htl : (473 : ℝ) / 2000 ≤ Real.tan ((119 : ℝ) / 512) := by
    apply poly_le_tan (by norm_num) (by norm_num) (by norm_num)
    norm_num
  have htu : Real.tan ((119 : ℝ) / 512) ≤ 237 / 1000 := by
    apply tan_le_of_poly (by norm_num) (by norm_num)
    norm_num
  have hd : 2 * ((473 : ℝ) / 2000) / (1 - (473 / 2000) ^ 2) ≤ Real.tan (2 * ((119 : ℝ) / 512)) :=
    le_tan_double (by norm_num) (by norm_num) (by norm_num) htl htu (by norm_num)
  have he : (119 : ℝ) / 256 = 2 * (119 / 512) := by norm_num
  rw [he]
  calc (1 : ℝ) / 2 ^ 1 < 2 * ((473 : ℝ) / 2000) / (1 - (473 / 2000) ^ 2) := by norm_num
  _ ≤ Real.tan (2 * ((119 : ℝ) / 512)) := hd

theorem atan_lb_2 : (31 : ℝ) / 128 ≤ Real.arctan (1 / 2 ^ 2) := by
  apply le_arctan_of_tan_le (by norm_num) (by have := one_lt_pi_div_two; linarith)
  apply tan_le_of_poly (by norm_num) (by norm_num)
  norm_num

theorem atan_ub_2 : Real.arctan (1 / 2 ^ 2) < (63 : ℝ) / 256 := by
  apply arctan_lt_of_lt_tan (by norm_num) (by have := one_lt_pi_div_two; linarith)
  have h : (2505 : ℝ) / 10000 ≤ Real.tan ((63 : ℝ) / 256) := by
    apply poly_le_tan (by norm_num) (by norm_num) (by norm_num)
    norm_num
  calc (1 : ℝ) / 2 ^ 2 < 2505 / 10000 := by norm_num
  _ ≤ Real.tan ((63 : ℝ) / 256) := h

theorem atan_lb_3 : (31 : ℝ) / 256 ≤ Real.arctan (1 / 2 ^ 3) := by
  apply le_arctan_of_tan_le (by norm_num) (by have := one_lt_pi_div_two; linarith)
  apply tan_le_of_poly (by norm_num) (by norm_num)
  norm_num

theorem atan_ub_3 : Real.arctan (1 / 2 ^ 3) < (32 : ℝ) / 256 := by
  apply arctan_lt_of_lt_tan (by norm_num) (by have := one_lt_pi_div_two; linarith)
  have h := Real.lt_tan (show (0:ℝ) < 32 / 256 by norm_num)
    (by have := one_lt_pi_div_two; linarith)
  calc (1 : ℝ) / 2 ^ 3 = 32 / 256 := by norm_num
  _ < Real.tan ((32 : ℝ) / 256) := h

theorem atan_lb_4 : (31 : ℝ) / 512 ≤ Real.arctan (1 / 2 ^ 4) := by
  apply le_arctan_of_tan_le (by norm_num) (by have := one_lt_pi_div_two; linarith)
  apply tan_le_of_poly (by norm_num) (by norm_num)
  norm_num

theorem atan_ub_4 : Real.arctan (1 / 2 ^ 4) < (16 : ℝ) / 256 := by
  apply arctan_lt_of_lt_tan (by norm_num) (by have := one_lt_pi_div_two; linarith)
  have h := Real.lt_tan (show (0:ℝ) < 16 / 256 by norm_num)
    (by have := one_lt_pi_div_two; linarith)
  calc (1 : ℝ) / 2 ^ 4 = 16 / 256 := by norm_num
  _ < Real.tan ((16 : ℝ) / 256) := h

theorem atan_lb_5 : (7 : ℝ) / 256 ≤ Real.arctan (1 / 2 ^ 5) := by
  apply le_arctan_of_tan_le (by norm_num) (by have := one_lt_pi_div_two; linarith)
  apply tan_le_of_poly (by norm_num) (by norm_num)
  norm_num

theorem atan_ub_5 : Real.arctan (1 / 2 ^ 5) < (8 : ℝ) / 256 := by
  apply arctan_lt_of_lt_tan (by norm_num) (by have := one_lt_pi_div_two; linarith)
  have h := Real.lt_tan (show (0:ℝ) < 8 / 256 by norm_num)
    (by have := one_lt_pi_div_two; linarith)
  calc (1 : ℝ) / 2 ^ 5 = 8 / 256 := by norm_num
  _ < Real.tan ((8 : ℝ) / 256) := h

theorem atan_lb_6 : (3 : ℝ) / 256 ≤ Real.arctan (1 / 2 ^ 6) := by
  apply le_arctan_of_tan_le (by norm_num) (by have := one_lt_pi_div_two; linarith)
  apply tan_le_of_poly (by norm_num) (by norm_num)
  norm_num

theorem atan_ub_6 : Real.arctan (1 / 2 ^ 6) < (4 : ℝ) / 256 := by
  apply arctan_lt_of_lt_tan (by norm_num) (by have := one_lt_pi_div_two; linarith)
  have h := Real.lt_tan (show (0:ℝ) < 4 / 256 by norm_num)
    (by have := one_lt_pi_div_two; linarith)
  calc (1 : ℝ) / 2 ^ 6 = 4 / 256 := by norm_num
  _ < Real.tan ((4 : ℝ) / 256) := h

theorem atan_lb_7 : (1 : ℝ) / 256 ≤ Real.arctan (1 / 2 ^ 7) := by
  apply le_arctan_of_tan_le (by norm_num) (by have := one_lt_pi_div_two; linarith)
  apply tan_le_of_poly (by norm_num) (by norm_num)
  norm_num

theorem atan_ub_7 : Real.arctan (1 / 2 ^ 7) < (2 : ℝ) / 256 := by
  apply arctan_lt_of_lt_tan (by norm_num) (by have := one_lt_pi_div_two; linarith)
  have h := Real.lt_tan (show (0:ℝ) < 2 / 256 by norm_num)
    (by have := one_lt_pi_div_two; linarith)
  calc (1 : ℝ) / 2 ^ 7 = 2 / 256 := by norm_num
  _ < Real.tan ((2 : ℝ) / 256) := h

theorem arctan_arg_nonneg {i : Nat} : 0 ≤ Real.arctan (1 / 2 ^ i) := by
  have h := Real.arctan_strictMono.monotone (show (0:ℝ) ≤ 1 / 2 ^ i by positivity)
  rwa [Real.arctan_zero] at h

theorem realTrunc_eq_of_bounds {x : ℝ} {v : Int} (h0 : 0 ≤ x)
    (hlb : (v : ℝ) ≤ x) (hub : x < v + 1) : realTrunc x = v := by
  unfold realTrunc
  rw [if_pos h0, Int.floor_eq_iff]
  exact ⟨hlb, hub⟩

theorem atan_entry_0 : realTrunc (Real.arctan (1 / 2 ^ 0) * 2 ^ 8) = 201 := by
  have h1 : Real.arctan ((1 : ℝ) / 2 ^ 0) = Real.pi / 4 := by
    norm_num [Real.arctan_one]
  rw [h1]
  have hgt := Real.pi_gt_d6
  have hlt := Real.pi_lt_d6
  apply realTrunc_eq_of_bounds (by positivity)
  · push_cast; nlinarith
  · push_cast; nlinarith

theorem atan_entry_1 : realTrunc (Real.arctan (1 / 2 ^ 1) * 2 ^ 8) = 118 := by
  have hlb := atan_lb_1
  have hub := atan_ub_1
  apply realTrunc_eq_of_bounds (mul_nonneg arctan_arg_nonneg (by positivity))
  · push_cast; nlinarith
  · push_cast; nlinarith

theorem atan_entry_2 : realTrunc (Real.arctan (1 / 2 ^ 2) * 2 ^ 8) = 62 := by
  have hlb := atan_lb_2
  have hub := atan_ub_2
  apply realTrunc_eq_of_bounds (mul_nonneg arctan_arg_nonneg (by positivity))
  · push_cast; nlinarith
  · push_cast; nlinarith

theorem atan_entry_3 : realTrunc (Real.arctan (1 / 2 ^ 3) * 2 ^ 8) = 31 := by
  have hlb := atan_lb_3
  have hub := atan_ub_3
  apply realTrunc_eq_of_bounds (mul_nonneg arctan_arg_nonneg (by positivity))
  · push_cast; nlinarith
  · push_cast; nlinarith

theorem atan_entry_4 : realTrunc (Real.arctan (1 / 2 ^ 4) * 2 ^ 8) = 15 := by
  have hlb := atan_lb_4
  have hub := atan_ub_4
  apply realTrunc_eq_of_bounds (mul_nonneg arctan_arg_nonneg (by positivity))
  · push_cast; nlinarith
  · push_cast; nlinarith

theorem atan_entry_5 : realTrunc (Real.arctan (1 / 2 ^ 5) * 2 ^ 8) = 7 := by
  have hlb := atan_lb_5
  have hub := atan_ub_5
  apply realTrunc_eq_of_bounds (mul_nonneg arctan_arg_nonneg (by positivity))
  · push_cast; nlinarith
  · push_cast; nlinarith

theorem atan_entry_6 : realTrunc (Real.arctan (1 / 2 ^ 6) * 2 ^ 8) = 3 := by
  have hlb := atan_lb_6
  have hub := atan_ub_6
  apply realTrunc_eq_of_bounds (mul_nonneg arctan_arg_nonneg (by positivity))
  · push_cast; nlinarith
  · push_cast; nlinarith

theorem atan_entry_7 : realTrunc (Real.arctan (1 / 2 ^ 7) * 2 ^ 8) = 1 := by
  have hlb := atan_lb_7
  have hub := atan_ub_7
  apply realTrunc_eq_of_bounds (mul_nonneg arctan_arg_nonneg (by positivity))
  · push_cast; nlinarith
  · push_cast; nlinarith

theorem atanGen_8 : atanGen 8 = [201, 118, 62, 31, 15, 7, 3, 1] := by
  unfold atanGen
  rw [show min 8 32 = 8 from rfl, show List.range 8 = [0, 1, 2, 3, 4, 5, 6, 7] from rfl]
  simp only [List.map_cons, List.map_nil]
  rw [atan_entry_0, atan_entry_1, atan_entry_2, atan_entry_3, atan_entry_4, atan_entry_5,
    atan_entry_6, atan_entry_7]

theorem cordicTable_8 : cordicTable 8 = [201, 118, 62, 31, 15, 7, 3, 1] := by
  unfold cordicTable
  rw [atanGen_8]
  rfl

theorem qsin78_zero : qsin 16 8 0 = -1 := by
  unfold qsin
  rw [cordicTable_8, piConst_16_8, kConst_8]
  decide

theorem qcos78_zero : qcos 16 8 0 = 255 := by
  unfold qcos
  rw [cordicTable_8, piConst_16_8, kConst_8]
  decide

/-! ### Claims about the Q7.8 boundary values and the CORDIC table -/

/-- C3 counterexample: with the actually generated table and gain, the
Q7.8 CORDIC computes `sin(0) = -1` and `cos(0) = 255`, not the claimed `0`
and `256`. -/
theorem q7_8_sin_cos_zero_off_by_one :
    qsin 16 8 0 ≠ 0 ∧ qcos 16 8 0 ≠ 256 := by
  rw [qsin78_zero, qcos78_zero]
  exact ⟨by decide, by decide⟩

/-- C3 (amended): the Q7.8 boundary values: `ONE = 256`, `PI = 804`,
`from_real(1.5) = 384`, `to_real(384) = 1.5`, CORDIC gain `K = 155`, the
8-entry arctangent table is `[201, 118, 62, 31, 15, 7, 3, 1]`, and the
CORDIC rotation yields `sin(0) = -1` and `cos(0) = 255` (one ULP below the
ideal `0` resp. `256`, a consequence of the truncated table entries and
truncating shifts). -/
theorem q7_8_boundary_values :
    oneConst 16 8 = 256 ∧ piConst 16 8 = 804 ∧
    fromDouble 8 (3 / 2) = 384 ∧ toDouble 8 384 = 3 / 2 ∧
    kConst 8 = 155 ∧ cordicTable 8 = [201, 118, 62, 31, 15, 7, 3, 1] ∧
    (cordicTable 8).length = 8 ∧
    qsin 16 8 0 = -1 ∧ qcos 16 8 0 = 255 := by
  refine ⟨by decide, piConst_16_8, ?_, ?_, kConst_8, cordicTable_8,
    by rw [cordicTable_8]; rfl, qsin78_zero, qcos78_zero⟩
  · unfold fromDouble ratTrunc; norm_num
  · unfold toDouble; norm_num

/-- C4 counterexample: the generated table entry for `i = 4` in Q7.8 is
`int(atan(2^-4) * 256) = 15` (truncation), while the claimed
`round(atan(2^-4) * 256)` is `16` (the value is `15.979...`). -/
theorem cordic_entry_truncated_not_rounded :
    (atanGen 8).getD 4 0 = 15 ∧
    roundNearestReal (Real.arctan (1 / 2 ^ 4) * 2 ^ 8) = 16 ∧
    (15 : Int) ≠ 16 := by
  refine ⟨by rw [atanGen_8]; rfl, ?_, by decide⟩
  unfold roundNearestReal
  rw [Int.floor_eq_iff]
  have hlb := atan_lb_4
  have hub := atan_ub_4
  constructor
  · push_cast; nlinarith
  · push_cast; nlinarith

/-- C4 (amended): for every format with `n ≤ 16` (all generated formats),
the Python table has `min(n,32) = n = min(n,16)` entries, entry `i` being
the truncation toward zero of `atan(2^-i) * 2^n` (not its rounding, see the
counterexample), and the C file's table — the one the CORDIC loops consume —
is exactly that table, of length `min(n,16)`. -/
theorem cordic_table_structure (n : Nat) (hn : n ≤ 16) :
    (atanGen n).length = min n 32 ∧
    cordicTable n = atanGen n ∧
    (cordicTable n).length = min n 16 ∧
    ∀ i : Nat, i < min n 32 →
      (atanGen n).getD i 0 = realTrunc (Real.arctan (1 / 2 ^ i) * 2 ^ n) := by
  have hlen : (atanGen n).length = min n 32 := by
    unfold atanGen; rw [List.length_map, List.length_range]
  have heq : cordicTable n = atanGen n := by
    unfold cordicTable
    apply List.take_of_length_le
    rw [hlen]; omega
  refine ⟨hlen, heq, ?_, ?_⟩
  · rw [heq, hlen]; omega
  · intro i hi
    unfold atanGen
    rw [List.getD_eq_getElem _ _ (by rw [List.length_map, List.length_range]; exact hi)]
    rw [List.getElem_map, List.getElem_range]

/-- Witness for C4, at the generated Q7.8 format. -/
theorem cordic_table_structure_witness :
    (atanGen 8).length = min 8 32 ∧ cordicTable 8 = atanGen 8 :=
  ⟨(cordic_table_structure 8 (by decide)).1, (cordic_table_structure 8 (by decide)).2.1⟩

/-! ### Termination of the sin/cos range reduction (C7) -/

theorem loop1_exit {w : Nat} {p a : Int} (h : ¬ p < a) :
    ∀ fuel, loop1 w p fuel a = a := by
  intro fuel
  cases fuel <;> simp [loop1, h]

theorem loop1Count_exit {w : Nat} {p a : Int} (h : ¬ p < a) :
    ∀ fuel, loop1Count w p fuel a = some 0 := by
  intro fuel
  cases fuel <;> simp [loop1Count, h]

theorem loop2Count_exit {w : Nat} {p a : Int} (h : ¬ a < -p) :
    ∀ fuel, loop2Count w p fuel a = some 0 := by
  intro fuel
  cases fuel <;> simp [loop2Count, h]

/-- With a positive in-range PI, each first-loop iteration subtracts `2*p`
exactly (no wrap), so the loop exits after at most `k` iterations whenever
`a ≤ p + 2*p*k`, at the value `a - 2*p*c ≤ p`. -/
theorem loop1Count_total {w : Nat} {p : Int} (hw : 1 ≤ w) (hp : 0 < p)
    (hpr : p < 2 ^ (w - 1)) :
    ∀ (k fuel : Nat) (a : Int), inRange w a → a ≤ p + 2 * p * (k : Int) → k ≤ fuel →
      ∃ c ≤ k, loop1Count w p fuel a = some c ∧
        loop1 w p fuel a = a - 2 * p * (c : Int) ∧ loop1 w p fuel a ≤ p ∧
        inRange w (loop1 w p fuel a) ∧
        (1 ≤ c → -p < loop1 w p fuel a) := by
  intro k
  induction k with
  | zero =>
    intro fuel a ha hle _
    simp only [Nat.cast_zero, mul_zero, add_zero] at hle
    have hex : ¬ p < a := by omega
    have hE := loop1_exit (w := w) hex fuel
    refine ⟨0, le_refl 0, loop1Count_exit hex fuel, ?_, ?_, ?_, ?_⟩
    · rw [hE]; push_cast; ring
    · rw [hE]; omega
    · rw [hE]; exact ha
    · intro h; omega
  | succ k ih =>
    intro fuel a ha hle hfuel
    by_cases hex : p < a
    · obtain ⟨f, rfl⟩ : ∃ f, fuel = f + 1 := ⟨fuel - 1, by omega⟩
      obtain ⟨ha1, ha2⟩ := ha
      have hstep : wrap w (a - 2 * p) = a - 2 * p :=
        wrap_eq_of_inRange hw (by omega) (by omega)
      have ha' : inRange w (a - 2 * p) := ⟨by omega, by omega⟩
      have hle' : a - 2 * p ≤ p + 2 * p * (k : Int) := by
        have hexp : 2 * p * (((k + 1 : ℕ)) : ℤ) = 2 * p * (k : ℤ) + 2 * p := by
          push_cast; ring
        rw [hexp] at hle
        linarith
      have hL : loop1 w p (f + 1) a = loop1 w p f (a - 2 * p) := by
        simp only [loop1]
        rw [if_pos hex, hstep]
      have hC : loop1Count w p (f + 1) a = (loop1Count w p f (a - 2 * p)).map (· + 1) := by
        simp only [loop1Count]
        rw [if_pos hex, hstep]
      obtain ⟨c, hck, hcount, hval, hle'', hrange, hlow⟩ :=
        ih f (a - 2 * p) ha' hle' (by omega)
      refine ⟨c + 1, by omega, ?_, ?_, ?_, ?_, ?_⟩
      · rw [hC, hcount]; rfl
      · rw [hL, hval]; push_cast; ring
      · rw [hL]; exact hle''
      · rw [hL]; exact hrange
      · intro _
        rw [hL]
        rcases Nat.eq_zero_or_pos c with hc0 | hc1
        · subst hc0
          rw [hval]
          push_cast
          omega
        · exact hlow hc1
    · have hE := loop1_exit (w := w) hex fuel
      refine ⟨0, by omega, loop1Count_exit hex fuel, ?_, ?_, ?_, ?_⟩
      · rw [hE]; push_cast; ring
      · rw [hE]; omega
      · rw [hE]; exact ha
      · intro h; omega

/-- Mirror of `loop1Count_total` for the second loop. -/
theorem loop2Count_total {w : Nat} {p : Int} (hw : 1 ≤ w) (hp : 0 < p)
    (hpr : p < 2 ^ (w - 1)) :
    ∀ (k fuel : Nat) (a : Int), inRange w a → -a ≤ p + 2 * p * (k : Int) → k ≤ fuel →
      ∃ c ≤ k, loop2Count w p fuel a = some c := by
  intro k
  induction k with
  | zero =>
    intro fuel a _ hle _
    simp only [Nat.cast_zero, mul_zero, add_zero] at hle
    exact ⟨0, le_refl 0, loop2Count_exit (by omega) fuel⟩
  | succ k ih =>
    intro fuel a ha hle hfuel
    by_cases hex : a < -p
    · obtain ⟨f, rfl⟩ : ∃ f, fuel = f + 1 := ⟨fuel - 1, by omega⟩
      obtain ⟨ha1, ha2⟩ := ha
      have hstep : wrap w (a + 2 * p) = a + 2 * p :=
        wrap_eq_of_inRange hw (by omega) (by omega)
      have ha' : inRange w (a + 2 * p) := ⟨by omega, by omega⟩
      have hle' : -(a + 2 * p) ≤ p + 2 * p * (k : Int) := by
        have hexp : 2 * p * (((k + 1 : ℕ)) : ℤ) = 2 * p * (k : ℤ) + 2 * p := by
          push_cast; ring
        rw [hexp] at hle
        linarith
      have hC : loop2Count w p (f + 1) a = (loop2Count w p f (a + 2 * p)).map (· + 1) := by
        simp only [loop2Count]
        rw [if_pos hex, hstep]
      obtain ⟨c, hck, hcount⟩ := ih f (a + 2 * p) ha' hle' (by omega)
      exact ⟨c + 1, by omega, by rw [hC, hcount]; rfl⟩
    · exact ⟨0, by omega, loop2Count_exit hex fuel⟩

/-- The linear iteration budget `|x| / (2p) + 1` satisfies the hypothesis of
the loop lemmas. -/
theorem natAbs_div_bound {p x : Int} (hp : 0 < p) :
    x ≤ p + 2 * p * ((x.natAbs / (2 * p).toNat + 1 : ℕ) : Int) := by
  set d := (2 * p).toNat with hd
  have hD : (d : ℤ) = 2 * p := Int.toNat_of_nonneg (by omega)
  have hdpos : 0 < d := by omega
  have hmod := Nat.div_add_mod x.natAbs d
  have hr : x.natAbs % d < d := Nat.mod_lt _ hdpos
  have h1 : x ≤ (x.natAbs : ℤ) := Int.le_natAbs
  have h2 : (x.natAbs : ℤ) = (d : ℤ) * ((x.natAbs / d : ℕ) : ℤ) + ((x.natAbs % d : ℕ) : ℤ) := by
    exact_mod_cast hmod.symm
  have h3 : ((x.natAbs % d : ℕ) : ℤ) < (d : ℤ) := by exact_mod_cast hr
  have hexp : 2 * p * ((x.natAbs / d + 1 : ℕ) : ℤ)
      = (d : ℤ) * ((x.natAbs / d : ℕ) : ℤ) + 2 * p := by
    rw [hD]
    push_cast; ring
  rw [hexp]
  linarith

/-- C7 (amended): for every format whose PI constant is positive and in
range (every generated format except Q0.7 and Q0.15, cf. C10), and every
in-range angle: with the fuel `sinWith`/`cosWith` use, the first
range-reduction loop terminates after `c1 ≤ |angle| / (2·PI) + 1`
iterations, the second loop — applied to the first loop's result, as in the
generated code — terminates after `c2 ≤ |angle| / (2·PI) + 1` iterations,
and the CORDIC rotation that follows runs exactly `min(n,16)` iterations
(the length of the table it folds over). -/
theorem sin_cos_range_reduction_bounded (w n : Nat) (p a : Int)
    (hw : 1 ≤ w) (hp : 0 < p) (hpr : p < 2 ^ (w - 1)) (ha : inRange w a) :
    (∃ c1 ≤ a.natAbs / (2 * p).toNat + 1,
      loop1Count w p (a.natAbs + 2 ^ w) a = some c1) ∧
    (∃ c2 ≤ a.natAbs / (2 * p).toNat + 1,
      loop2Count w p (a.natAbs + 2 ^ w) (loop1 w p (a.natAbs + 2 ^ w) a) = some c2) ∧
    (cordicTable n).length = min n 16 := by
  have hfuel : a.natAbs / (2 * p).toNat + 1 ≤ a.natAbs + 2 ^ w := by
    have h1 := Nat.div_le_self a.natAbs (2 * p).toNat
    have h2 : 1 ≤ 2 ^ w := Nat.one_le_two_pow
    omega
  obtain ⟨c, hck, hcount, hval, hle, hrange, hlow⟩ :=
    loop1Count_total hw hp hpr (a.natAbs / (2 * p).toNat + 1) (a.natAbs + 2 ^ w) a ha
      (natAbs_div_bound hp) hfuel
  refine ⟨⟨c, hck, hcount⟩, ?_, ?_⟩
  · rcases Nat.eq_zero_or_pos c with hc0 | hc1
    · subst hc0
      have hra : loop1 w p (a.natAbs + 2 ^ w) a = a := by
        rw [hval]; push_cast; ring
      rw [hra]
      have hneg : -a ≤ p + 2 * p * ((a.natAbs / (2 * p).toNat + 1 : ℕ) : Int) := by
        have h := @natAbs_div_bound p (-a) hp
        rw [Int.natAbs_neg] at h
        exact h
      exact loop2Count_total hw hp hpr (a.natAbs / (2 * p).toNat + 1) (a.natAbs + 2 ^ w) a ha
        hneg hfuel
    · have hlow' := hlow hc1
      exact ⟨0, by omega, loop2Count_exit (by omega) _⟩
  · unfold cordicTable atanGen
    rw [List.length_take, List.length_map, List.length_range]
    omega

/-- Witness for C7 at Q7.8 with angle 2000 (≈ 7.81 rad). -/
theorem sin_cos_range_reduction_bounded_witness :
    (∃ c1 ≤ (2000 : Int).natAbs / (2 * 804 : Int).toNat + 1,
      loop1Count 16 804 ((2000 : Int).natAbs + 2 ^ 16) 2000 = some c1) ∧
    (∃ c2 ≤ (2000 : Int).natAbs / (2 * 804 : Int).toNat + 1,
      loop2Count 16 804 ((2000 : Int).natAbs + 2 ^ 16)
        (loop1 16 804 ((2000 : Int).natAbs + 2 ^ 16) 2000) = some c2) ∧
    (cordicTable 8).length = min 8 16 :=
  sin_cos_range_reduction_bounded 16 8 804 2000 (by decide) (by decide) (by decide) (by decide)

/-- C7 counterexample: in the generated Q0.7 format, PI = -110 < 0, the
first loop's guard `angle > PI` holds even at angle 0, and the loop then
runs 32 times before its stored angle first drops to or below -110 — not
bounded by the magnitude of the input angle relative to 2·PI, which at
angle 0 would allow at most `0 / |2·PI| + 1 = 1` iteration. -/
theorem q0_7_range_reduction_unbounded_by_magnitude :
    piConst 8 7 = -110 ∧
    loop1Count 8 (piConst 8 7) 64 0 = some 32 ∧
    ¬ ((32 : ℕ) ≤ (0 : Int).natAbs / (2 * piConst 8 7).natAbs + 1) := by
  refine ⟨piConst_8_7, ?_, ?_⟩
  · rw [piConst_8_7]; decide
  · rw [piConst_8_7]; decide
